import Mathlib

/-!
Shallow embedding of `src/cyclops.c` (jrxna/cyclops), a program that
generates backdated git commits over a date range.

C strings are modelled as lists of byte values (`List Nat`), C `int` as
`Int`.  The C library's `rand()` is modelled as an arbitrary stream of
nonnegative values `Nat → Nat`; external collaborators (git, the
activity file) are modelled as success/failure oracles.
-/

namespace Cyclops

/-- The `Date` struct of cyclops.c: year, month, day as C ints. -/
structure Date where
  year : Int
  month : Int
  day : Int
deriving DecidableEq, Repr

/-! ### Byte-level scanning (sscanf "%d-%d-%d" and atoi) -/

/-- C `isspace` on a byte: space or \t \n \v \f \r (ASCII 9–13, 32). -/
def isSpaceB (c : Nat) : Bool := c == 32 || (9 ≤ c && c ≤ 13)

/-- ASCII digit test on a byte. -/
def isDigitB (c : Nat) : Bool := 48 ≤ c && c ≤ 57

/-- Skip leading whitespace, as scanf's %d conversion does. -/
def skipSpaces : List Nat → List Nat
  | [] => []
  | c :: rest => if isSpaceB c then skipSpaces rest else c :: rest

/-- Read a maximal run of decimal digits, accumulating their value;
returns the value and the unconsumed remainder. -/
def readDigits : List Nat → Nat → Nat × List Nat
  | [], acc => (acc, [])
  | c :: rest, acc =>
    if isDigitB c then readDigits rest (acc * 10 + (c - 48)) else (acc, c :: rest)

/-- One `%d` conversion of `sscanf`: skip whitespace, optional sign,
then at least one digit; `none` is a matching failure. -/
def scanInt (s : List Nat) : Option (Int × List Nat) :=
  match skipSpaces s with
  | [] => none
  | c :: rest =>
    if c == 45 then
      match rest with
      | [] => none
      | d :: _ =>
        if isDigitB d then
          let p := readDigits rest 0
          some (-(p.1 : Int), p.2)
        else none
    else if c == 43 then
      match rest with
      | [] => none
      | d :: _ =>
        if isDigitB d then
          let p := readDigits rest 0
          some ((p.1 : Int), p.2)
        else none
    else if isDigitB c then
      let p := readDigits (c :: rest) 0
      some ((p.1 : Int), p.2)
    else none

/-- `parse_date` from cyclops.c: `sscanf(date_str, "%d-%d-%d", ...)`
must convert all three fields (each literal `-` in the format matches
exactly one `-` byte, with no whitespace skip), then the bounds
1900 ≤ year ≤ 2100, 1 ≤ month ≤ 12, 1 ≤ day ≤ 31 are checked.
Returns the date on success (C returns 1/0 and writes through a pointer). -/
def parse_date (s : List Nat) : Option Date :=
  match scanInt s with
  | none => none
  | some (y, r1) =>
    match r1 with
    | [] => none
    | c1 :: r2 =>
      if c1 == 45 then
        match scanInt r2 with
        | none => none
        | some (m, r3) =>
          match r3 with
          | [] => none
          | c2 :: r4 =>
            if c2 == 45 then
              match scanInt r4 with
              | none => none
              | some (d, _) =>
                if y < 1900 || y > 2100 || m < 1 || m > 12 || d < 1 || d > 31 then
                  none
                else
                  some ⟨y, m, d⟩
            else none
      else none

/-- C `atoi`: skip whitespace, optional sign, then a (possibly empty)
digit run; no digits gives 0. -/
def atoi (s : List Nat) : Int :=
  match skipSpaces s with
  | [] => 0
  | c :: rest =>
    if c == 45 then -(((readDigits rest 0).1 : Int))
    else if c == 43 then ((readDigits rest 0).1 : Int)
    else ((readDigits (c :: rest) 0).1 : Int)

/-! ### Calendar -/

/-- `is_leap_year` from cyclops.c:
`(year % 4 == 0 && year % 100 != 0) || (year % 400 == 0)`.
C's `%` on ints is truncated remainder, i.e. `Int.tmod`. -/
def is_leap_year (year : Int) : Bool :=
  (year.tmod 4 == 0 && year.tmod 100 != 0) || (year.tmod 400 == 0)

/-- `days_in_month` from cyclops.c: fixed table indexed by `month - 1`,
with February bumped to 29 in leap years.  The C array read
`days[month - 1]` is modelled with `List.getD` (default 0 for the
out-of-bounds indices the C code never exercises). -/
def days_in_month (month : Int) (year : Int) : Int :=
  if month == 2 && is_leap_year year then 29
  else List.getD [31, 28, 31, 30, 31, 30, 31, 31, 30, 31, 30, 31] (month - 1).toNat 0

/-- `increment_date` from cyclops.c: `day++`; on month overflow reset
day to 1 and `month++`; on month 13 reset month to 1 and `year++`. -/
def increment_date (date : Date) : Date :=
  let d1 : Date := { date with day := date.day + 1 }
  if d1.day > days_in_month d1.month d1.year then
    let d2 : Date := { d1 with day := 1, month := d1.month + 1 }
    if d2.month > 12 then { d2 with month := 1, year := d2.year + 1 }
    else d2
  else d1

/-- `compare_dates` from cyclops.c: lexicographic on (year, month, day),
returning -1 / 0 / 1. -/
def compare_dates (date1 date2 : Date) : Int :=
  if date1.year ≠ date2.year then
    if date1.year < date2.year then -1 else 1
  else if date1.month ≠ date2.month then
    if date1.month < date2.month then -1 else 1
  else if date1.day ≠ date2.day then
    if date1.day < date2.day then -1 else 1
  else 0

/-! ### Content generation (create_commit, lines 212–236) -/

/-- Session minutes written to the activity log:
`(rand() % 180) + 30`, as a function of the `rand()` draw. -/
def pick_session_minutes (r : Nat) : Nat := r % 180 + 30

/-- Changed lines written to the activity log:
`(rand() % 100) + 10`, as a function of the `rand()` draw. -/
def pick_changed_lines (r : Nat) : Nat := r % 100 + 10

/-- Forged commit hour: `rand() % 14 + 8`, as a function of the
`rand()` draw. -/
def pick_hour (r : Nat) : Nat := r % 14 + 8

/-- Forged commit minute: `rand() % 60`, as a function of the
`rand()` draw. -/
def pick_minute (r : Nat) : Nat := r % 60

/-! ### Basic calendar lemmas -/

lemma days_in_month_bounds (m y : Int) (h1 : 1 ≤ m) (h2 : m ≤ 12) :
    28 ≤ days_in_month m y ∧ days_in_month m y ≤ 31 := by
  unfold days_in_month
  split
  · omega
  · interval_cases m <;> decide

/-- C8: is_leap_year implements the Gregorian rule: true exactly when the
year is divisible by 4 and not by 100, or divisible by 400; in particular
2000 and 2024 are leap years while 1900 and 2023 are not. -/
theorem is_leap_year_gregorian :
    (∀ y : Int, is_leap_year y = true ↔ ((4 ∣ y ∧ ¬(100 ∣ y)) ∨ 400 ∣ y)) ∧
    is_leap_year 2000 = true ∧ is_leap_year 1900 = false ∧
    is_leap_year 2024 = true ∧ is_leap_year 2023 = false := by
  refine ⟨fun y => ?_, by decide, by decide, by decide, by decide⟩
  simp only [is_leap_year, Bool.or_eq_true, Bool.and_eq_true, beq_iff_eq, bne_iff_ne, ne_eq,
    ← Int.dvd_iff_tmod_eq_zero]

/-- Witness for C8: the characterization applied at year 2024. -/
theorem is_leap_year_gregorian_witness :
    (4 ∣ (2024 : Int) ∧ ¬(100 ∣ (2024 : Int))) ∨ (400 : Int) ∣ 2024 :=
  (is_leap_year_gregorian.1 2024).mp (by decide)

/-- C2 (amended): the session-minutes value `(rand() % 180) + 30` is
uniform over [30, 209]: it always lies in [30, 209], and every value in
[30, 209] is produced by some rand() draw. -/
theorem pick_session_minutes_uniform :
    (∀ r : Nat, 30 ≤ pick_session_minutes r ∧ pick_session_minutes r ≤ 209) ∧
    (∀ v : Nat, 30 ≤ v → v ≤ 209 →
      ∃ r : Nat, r ≤ 2147483647 ∧ pick_session_minutes r = v) := by
  constructor
  · intro r
    unfold pick_session_minutes
    omega
  · intro v h1 h2
    exact ⟨v - 30, by omega, by unfold pick_session_minutes; omega⟩

/-- Witness for C2: bounds at a concrete draw, and 100 minutes is attained. -/
theorem pick_session_minutes_uniform_witness :
    (30 ≤ pick_session_minutes 7 ∧ pick_session_minutes 7 ≤ 209) ∧
    (∃ r : Nat, r ≤ 2147483647 ∧ pick_session_minutes r = 100) :=
  ⟨pick_session_minutes_uniform.1 7,
   pick_session_minutes_uniform.2 100 (by norm_num) (by norm_num)⟩

/-- Counterexample for C2 as stated: no rand() draw ever yields 210
session minutes, since `r % 180 + 30 ≤ 209`. -/
theorem pick_session_minutes_never_210 :
    ¬ ∃ r : Nat, pick_session_minutes r = 210 := by
  rintro ⟨r, hr⟩
  unfold pick_session_minutes at hr
  omega

/-- C3 (amended): the changed-lines value `(rand() % 100) + 10` is
uniform over [10, 109]: it always lies in [10, 109], and every value in
[10, 109] is produced by some rand() draw. -/
theorem pick_changed_lines_uniform :
    (∀ r : Nat, 10 ≤ pick_changed_lines r ∧ pick_changed_lines r ≤ 109) ∧
    (∀ v : Nat, 10 ≤ v → v ≤ 109 →
      ∃ r : Nat, r ≤ 2147483647 ∧ pick_changed_lines r = v) := by
  constructor
  · intro r
    unfold pick_changed_lines
    omega
  · intro v h1 h2
    exact ⟨v - 10, by omega, by unfold pick_changed_lines; omega⟩

/-- Witness for C3: bounds at a concrete draw, and 55 lines is attained. -/
theorem pick_changed_lines_uniform_witness :
    (10 ≤ pick_changed_lines 3 ∧ pick_changed_lines 3 ≤ 109) ∧
    (∃ r : Nat, r ≤ 2147483647 ∧ pick_changed_lines r = 55) :=
  ⟨pick_changed_lines_uniform.1 3,
   pick_changed_lines_uniform.2 55 (by norm_num) (by norm_num)⟩

/-- Counterexample for C3 as stated: no rand() draw ever yields 110
changed lines, since `r % 100 + 10 ≤ 109`. -/
theorem pick_changed_lines_never_110 :
    ¬ ∃ r : Nat, pick_changed_lines r = 110 := by
  rintro ⟨r, hr⟩
  unfold pick_changed_lines at hr
  omega

/-- C9: for every pair of rand() draws, the forged timestamp's hour
`rand() % 14 + 8` lies in [8, 21] and its minute `rand() % 60` lies in
[0, 59]. -/
theorem pick_time_of_day_range :
    ∀ r1 r2 : Nat, 8 ≤ pick_hour r1 ∧ pick_hour r1 ≤ 21 ∧
      0 ≤ pick_minute r2 ∧ pick_minute r2 ≤ 59 := by
  intro r1 r2
  unfold pick_hour pick_minute
  omega

/-- C7: every parse-accepted date (year in [1900, 2100], month in
[1, 12], day in [1, 31]) compares strictly less than its increment. -/
theorem compare_increment_is_less (d : Date)
    (hy : 1900 ≤ d.year) (hy2 : d.year ≤ 2100)
    (hm : 1 ≤ d.month) (hm2 : d.month ≤ 12)
    (hd : 1 ≤ d.day) (hd2 : d.day ≤ 31) :
    compare_dates d (increment_date d) = -1 := by
  obtain ⟨y, m, dd⟩ := d
  simp only [increment_date, compare_dates]
  split_ifs <;> simp_all

/-- Witness for C7: a leap-day instance, 2024-02-29 < 2024-03-01. -/
theorem compare_increment_is_less_witness :
    compare_dates ⟨2024, 2, 29⟩ (increment_date ⟨2024, 2, 29⟩) = -1 :=
  compare_increment_is_less ⟨2024, 2, 29⟩ (by decide) (by decide) (by decide)
    (by decide) (by decide) (by decide)

/-- C10: increment restores day-validity: for any date with month in
[1, 12] and day in [1, 31] (every parse-accepted date, even an invalid
one like 2024-02-30), the incremented date has month in [1, 12], year
increased by at most one, and day in [1, days_in_month] of the new
month and year. -/
theorem increment_date_valid (d : Date)
    (hm : 1 ≤ d.month) (hm2 : d.month ≤ 12)
    (hd : 1 ≤ d.day) (hd2 : d.day ≤ 31) :
    1 ≤ (increment_date d).month ∧ (increment_date d).month ≤ 12 ∧
    d.year ≤ (increment_date d).year ∧ (increment_date d).year ≤ d.year + 1 ∧
    1 ≤ (increment_date d).day ∧
    (increment_date d).day ≤
      days_in_month (increment_date d).month (increment_date d).year := by
  obtain ⟨y, m, dd⟩ := d
  simp only [increment_date]
  split_ifs with h1 h2 <;> dsimp only at *
  · have := days_in_month_bounds 1 (y + 1) (by omega) (by omega)
    refine ⟨by omega, by omega, by omega, by omega, by omega, by omega⟩
  · have := days_in_month_bounds (m + 1) y (by omega) (by omega)
    refine ⟨by omega, by omega, by omega, by omega, by omega, by omega⟩
  · refine ⟨by omega, by omega, by omega, by omega, by omega, by omega⟩

/-- Witness for C10: incrementing the parse-accepted but invalid
2024-02-30 lands on the valid date 2024-03-01. -/
theorem increment_date_valid_witness :
    1 ≤ (increment_date ⟨2024, 2, 30⟩).month ∧
    (increment_date ⟨2024, 2, 30⟩).month ≤ 12 ∧
    (2024 : Int) ≤ (increment_date ⟨2024, 2, 30⟩).year ∧
    (increment_date ⟨2024, 2, 30⟩).year ≤ (2024 : Int) + 1 ∧
    1 ≤ (increment_date ⟨2024, 2, 30⟩).day ∧
    (increment_date ⟨2024, 2, 30⟩).day ≤
      days_in_month (increment_date ⟨2024, 2, 30⟩).month
        (increment_date ⟨2024, 2, 30⟩).year :=
  increment_date_valid ⟨2024, 2, 30⟩ (by decide) (by decide) (by decide) (by decide)

/-! ### C6: iterating increment over a whole year -/

lemma iterate_within_month (y m : Int) :
    ∀ (k : Nat) (d : Int), 1 ≤ d → d + k ≤ days_in_month m y →
      increment_date^[k] ⟨y, m, d⟩ = ⟨y, m, d + k⟩ := by
  intro k
  induction k with
  | zero => intro d _ _; simp
  | succ k ih =>
    intro d h1 h2
    rw [Function.iterate_succ_apply]
    have hstep : increment_date ⟨y, m, d⟩ = ⟨y, m, d + 1⟩ := by
      simp only [increment_date]
      rw [if_neg (by omega)]
    rw [hstep, ih (d + 1) (by omega) (by omega)]
    simp only [Date.mk.injEq, true_and]
    omega

lemma month_step (y m : Int) (hm : 1 ≤ m) (hm2 : m < 12) :
    increment_date^[(days_in_month m y).toNat] ⟨y, m, 1⟩ = ⟨y, m + 1, 1⟩ := by
  have hb := days_in_month_bounds m y (by omega) (by omega)
  obtain ⟨k, hk⟩ : ∃ k, (days_in_month m y).toNat = k + 1 :=
    ⟨(days_in_month m y).toNat - 1, by omega⟩
  rw [hk, Function.iterate_succ_apply']
  rw [iterate_within_month y m k 1 (by omega) (by omega)]
  simp only [increment_date]
  split_ifs with h1 h2
  · exfalso; omega
  · rfl
  · exfalso; omega

lemma december_step (y : Int) :
    increment_date^[31] ⟨y, 12, 1⟩ = ⟨y + 1, 1, 1⟩ := by
  have hd : days_in_month 12 y = 31 := rfl
  rw [show (31 : Nat) = 30 + 1 from rfl, Function.iterate_succ_apply']
  rw [iterate_within_month y 12 30 1 (by omega) (by omega)]
  simp only [increment_date]
  split_ifs with h1 h2
  · rfl
  · exfalso; omega
  · exfalso; omega

/-- C6: increment applied 365 times to January 1 of a non-leap year
yields January 1 of the next year, and 366 times to January 1 of a
leap year yields January 1 of the next year. -/
theorem increment_date_year (y : Int) :
    (is_leap_year y = false → increment_date^[365] ⟨y, 1, 1⟩ = ⟨y + 1, 1, 1⟩) ∧
    (is_leap_year y = true → increment_date^[366] ⟨y, 1, 1⟩ = ⟨y + 1, 1, 1⟩) := by
  have m1 : increment_date^[31] ⟨y, 1, 1⟩ = ⟨y, 2, 1⟩ := by
    have h := month_step y 1 (by omega) (by omega)
    rw [show days_in_month 1 y = 31 from rfl] at h
    norm_num at h
    exact h
  have m3 : increment_date^[31] ⟨y, 3, 1⟩ = ⟨y, 4, 1⟩ := by
    have h := month_step y 3 (by omega) (by omega)
    rw [show days_in_month 3 y = 31 from rfl] at h
    norm_num at h
    exact h
  have m4 : increment_date^[30] ⟨y, 4, 1⟩ = ⟨y, 5, 1⟩ := by
    have h := month_step y 4 (by omega) (by omega)
    rw [show days_in_month 4 y = 30 from rfl] at h
    norm_num at h
    exact h
  have m5 : increment_date^[31] ⟨y, 5, 1⟩ = ⟨y, 6, 1⟩ := by
    have h := month_step y 5 (by omega) (by omega)
    rw [show days_in_month 5 y = 31 from rfl] at h
    norm_num at h
    exact h
  have m6 : increment_date^[30] ⟨y, 6, 1⟩ = ⟨y, 7, 1⟩ := by
    have h := month_step y 6 (by omega) (by omega)
    rw [show days_in_month 6 y = 30 from rfl] at h
    norm_num at h
    exact h
  have m7 : increment_date^[31] ⟨y, 7, 1⟩ = ⟨y, 8, 1⟩ := by
    have h := month_step y 7 (by omega) (by omega)
    rw [show days_in_month 7 y = 31 from rfl] at h
    norm_num at h
    exact h
  have m8 : increment_date^[31] ⟨y, 8, 1⟩ = ⟨y, 9, 1⟩ := by
    have h := month_step y 8 (by omega) (by omega)
    rw [show days_in_month 8 y = 31 from rfl] at h
    norm_num at h
    exact h
  have m9 : increment_date^[30] ⟨y, 9, 1⟩ = ⟨y, 10, 1⟩ := by
    have h := month_step y 9 (by omega) (by omega)
    rw [show days_in_month 9 y = 30 from rfl] at h
    norm_num at h
    exact h
  have m10 : increment_date^[31] ⟨y, 10, 1⟩ = ⟨y, 11, 1⟩ := by
    have h := month_step y 10 (by omega) (by omega)
    rw [show days_in_month 10 y = 31 from rfl] at h
    norm_num at h
    exact h
  have m11 : increment_date^[30] ⟨y, 11, 1⟩ = ⟨y, 12, 1⟩ := by
    have h := month_step y 11 (by omega) (by omega)
    rw [show days_in_month 11 y = 30 from rfl] at h
    norm_num at h
    exact h
  constructor
  · intro hnl
    have mfeb : increment_date^[28] ⟨y, 2, 1⟩ = ⟨y, 3, 1⟩ := by
      have h := month_step y 2 (by omega) (by omega)
      rw [show days_in_month 2 y = 28 from by simp [days_in_month, hnl]] at h
      norm_num at h
      exact h
    rw [show (365 : Nat) = 334 + 31 from rfl, Function.iterate_add_apply, m1]
    rw [show (334 : Nat) = 306 + 28 from rfl, Function.iterate_add_apply, mfeb]
    rw [show (306 : Nat) = 275 + 31 from rfl, Function.iterate_add_apply, m3]
    rw [show (275 : Nat) = 245 + 30 from rfl, Function.iterate_add_apply, m4]
    rw [show (245 : Nat) = 214 + 31 from rfl, Function.iterate_add_apply, m5]
    rw [show (214 : Nat) = 184 + 30 from rfl, Function.iterate_add_apply, m6]
    rw [show (184 : Nat) = 153 + 31 from rfl, Function.iterate_add_apply, m7]
    rw [show (153 : Nat) = 122 + 31 from rfl, Function.iterate_add_apply, m8]
    rw [show (122 : Nat) = 92 + 30 from rfl, Function.iterate_add_apply, m9]
    rw [show (92 : Nat) = 61 + 31 from rfl, Function.iterate_add_apply, m10]
    rw [show (61 : Nat) = 31 + 30 from rfl, Function.iterate_add_apply, m11]
    exact december_step y
  · intro hl
    have mfeb : increment_date^[29] ⟨y, 2, 1⟩ = ⟨y, 3, 1⟩ := by
      have h := month_step y 2 (by omega) (by omega)
      rw [show days_in_month 2 y = 29 from by simp [days_in_month, hl]] at h
      norm_num at h
      exact h
    rw [show (366 : Nat) = 335 + 31 from rfl, Function.iterate_add_apply, m1]
    rw [show (335 : Nat) = 306 + 29 from rfl, Function.iterate_add_apply, mfeb]
    rw [show (306 : Nat) = 275 + 31 from rfl, Function.iterate_add_apply, m3]
    rw [show (275 : Nat) = 245 + 30 from rfl, Function.iterate_add_apply, m4]
    rw [show (245 : Nat) = 214 + 31 from rfl, Function.iterate_add_apply, m5]
    rw [show (214 : Nat) = 184 + 30 from rfl, Function.iterate_add_apply, m6]
    rw [show (184 : Nat) = 153 + 31 from rfl, Function.iterate_add_apply, m7]
    rw [show (153 : Nat) = 122 + 31 from rfl, Function.iterate_add_apply, m8]
    rw [show (122 : Nat) = 92 + 30 from rfl, Function.iterate_add_apply, m9]
    rw [show (92 : Nat) = 61 + 31 from rfl, Function.iterate_add_apply, m10]
    rw [show (61 : Nat) = 31 + 30 from rfl, Function.iterate_add_apply, m11]
    exact december_step y

/-- Witness for C6: the year boundaries 2023 to 2024 (non-leap) and 2024
to 2025 (leap). -/
theorem increment_date_year_witness :
    increment_date^[365] ⟨2023, 1, 1⟩ = ⟨2024, 1, 1⟩ ∧
    increment_date^[366] ⟨2024, 1, 1⟩ = ⟨2025, 1, 1⟩ :=
  ⟨(increment_date_year 2023).1 (by decide), (increment_date_year 2024).2 (by decide)⟩


/-- Modelled from the spec's words (C1): a byte string "of the form
YYYY-MM-DD with numeric fields" read strictly — exactly ten bytes, four
digits, a dash, two digits, a dash, two digits — together with the three
numeric field values.  This is the spec-side definition that `parse_date`
is compared against. -/
def strict_form_fields (s : List Nat) : Option (Nat × Nat × Nat) :=
  match s with
  | [a, b, c, d, k1, e, f, k2, g, h] =>
    if isDigitB a && isDigitB b && isDigitB c && isDigitB d && k1 == 45 &&
       isDigitB e && isDigitB f && k2 == 45 && isDigitB g && isDigitB h then
      some ((a - 48) * 1000 + (b - 48) * 100 + (c - 48) * 10 + (d - 48),
            (e - 48) * 10 + (f - 48),
            (g - 48) * 10 + (h - 48))
    else none
  | _ => none

lemma skipSpaces_cons_of_nospace (u : Nat) (rest : List Nat) (h : isSpaceB u = false) :
    skipSpaces (u :: rest) = u :: rest := by
  unfold skipSpaces
  simp [h]

lemma readDigits_cons_digit (u : Nat) (rest : List Nat) (acc : Nat) (h : isDigitB u = true) :
    readDigits (u :: rest) acc = readDigits rest (acc * 10 + (u - 48)) := by
  have hstep : readDigits (u :: rest) acc =
      if isDigitB u = true then readDigits rest (acc * 10 + (u - 48)) else (acc, u :: rest) := rfl
  rw [hstep, if_pos h]

lemma readDigits_cons_nondigit (u : Nat) (rest : List Nat) (acc : Nat) (h : isDigitB u = false) :
    readDigits (u :: rest) acc = (acc, u :: rest) := by
  have hstep : readDigits (u :: rest) acc =
      if isDigitB u = true then readDigits rest (acc * 10 + (u - 48)) else (acc, u :: rest) := rfl
  rw [hstep, if_neg (by simp [h])]

lemma scanInt_digit_head (u v : Nat) (rest rest2 : List Nat)
    (h1 : 48 ≤ u) (h2 : u ≤ 57) (hrd : readDigits (u :: rest) 0 = (v, rest2)) :
    scanInt (u :: rest) = some ((v : Int), rest2) := by
  have hs : isSpaceB u = false := by simp [isSpaceB]; omega
  have hd : isDigitB u = true := by simp [isDigitB]; omega
  have h45 : (u == 45) = false := by simp; omega
  have h43 : (u == 43) = false := by simp; omega
  unfold scanInt
  rw [skipSpaces_cons_of_nospace u rest hs]
  simp [h45, h43, hd, hrd]

/-- Counterexample for C1 as stated: the byte string "2024-01-01x" is
not of the form YYYY-MM-DD, yet parse succeeds on it (sscanf ignores
trailing bytes). -/
theorem parse_date_accepts_beyond_format :
    (parse_date [50, 48, 50, 52, 45, 48, 49, 45, 48, 49, 120]).isSome = true ∧
    strict_form_fields [50, 48, 50, 52, 45, 48, 49, 45, 48, 49, 120] = none := by
  decide

/-- C1 (amended): on every byte string of the exact form YYYY-MM-DD,
parse succeeds with the three numeric fields exactly when year is in
[1900, 2100], month in [1, 12] and day in [1, 31] (the flat day bound,
not the month length), and fails otherwise; acceptance is, however, not
limited to that exact form. -/
theorem parse_date_strict (s : List Nat) (y m d : Nat)
    (h : strict_form_fields s = some (y, m, d)) :
    parse_date s =
      if 1900 ≤ y ∧ y ≤ 2100 ∧ 1 ≤ m ∧ m ≤ 12 ∧ 1 ≤ d ∧ d ≤ 31 then
        some ⟨(y : Int), (m : Int), (d : Int)⟩
      else none := by
  rcases s with _ | ⟨a, _ | ⟨b, _ | ⟨c, _ | ⟨dd, _ | ⟨k1, _ | ⟨e, _ | ⟨f, _ | ⟨k2, _ | ⟨g,
    _ | ⟨hh, _ | ⟨x, rest⟩⟩⟩⟩⟩⟩⟩⟩⟩⟩⟩ <;>
    simp only [strict_form_fields, reduceCtorEq] at h
  split_ifs at h with hcond
  simp only [Bool.and_eq_true, beq_iff_eq, isDigitB, decide_eq_true_eq] at hcond
  obtain ⟨⟨⟨⟨⟨⟨⟨⟨⟨ha, hb⟩, hc⟩, hd⟩, hk1⟩, he⟩, hf⟩, hk2⟩, hg⟩, hhh⟩ := hcond
  subst hk1
  subst hk2
  simp only [Option.some.injEq, Prod.mk.injEq] at h
  obtain ⟨hy, hm, hd2⟩ := h
  subst hy
  subst hm
  subst hd2
  have h45d : isDigitB 45 = false := rfl
  have hr1 : readDigits (a :: b :: c :: dd :: 45 :: e :: f :: 45 :: g :: hh :: []) 0 =
      ((((0 * 10 + (a - 48)) * 10 + (b - 48)) * 10 + (c - 48)) * 10 + (dd - 48),
       45 :: e :: f :: 45 :: g :: hh :: []) := by
    rw [readDigits_cons_digit _ _ _ (by simp [isDigitB]; omega),
        readDigits_cons_digit _ _ _ (by simp [isDigitB]; omega),
        readDigits_cons_digit _ _ _ (by simp [isDigitB]; omega),
        readDigits_cons_digit _ _ _ (by simp [isDigitB]; omega),
        readDigits_cons_nondigit _ _ _ h45d]
  have hr2 : readDigits (e :: f :: 45 :: g :: hh :: []) 0 =
      ((0 * 10 + (e - 48)) * 10 + (f - 48), 45 :: g :: hh :: []) := by
    rw [readDigits_cons_digit _ _ _ (by simp [isDigitB]; omega),
        readDigits_cons_digit _ _ _ (by simp [isDigitB]; omega),
        readDigits_cons_nondigit _ _ _ h45d]
  have hr3 : readDigits (g :: hh :: []) 0 =
      ((0 * 10 + (g - 48)) * 10 + (hh - 48), []) := by
    rw [readDigits_cons_digit _ _ _ (by simp [isDigitB]; omega),
        readDigits_cons_digit _ _ _ (by simp [isDigitB]; omega)]
    rfl
  have hs1 := scanInt_digit_head a _ _ _ ha.1 ha.2 hr1
  have hs2 := scanInt_digit_head e _ _ _ he.1 he.2 hr2
  have hs3 := scanInt_digit_head g _ _ _ hg.1 hg.2 hr3
  unfold parse_date
  rw [hs1]
  simp only
  rw [if_pos (by rfl)]
  rw [hs2]
  simp only
  rw [if_pos (by rfl)]
  rw [hs3]
  simp only
  by_cases hB : 1900 ≤ (a - 48) * 1000 + (b - 48) * 100 + (c - 48) * 10 + (dd - 48) ∧
      (a - 48) * 1000 + (b - 48) * 100 + (c - 48) * 10 + (dd - 48) ≤ 2100 ∧
      1 ≤ (e - 48) * 10 + (f - 48) ∧ (e - 48) * 10 + (f - 48) ≤ 12 ∧
      1 ≤ (g - 48) * 10 + (hh - 48) ∧ (g - 48) * 10 + (hh - 48) ≤ 31
  · rw [if_pos hB, if_neg]
    · simp only [Option.some.injEq, Date.mk.injEq]
      refine ⟨?_, ?_, ?_⟩ <;> omega
    · simp only [Bool.or_eq_true, decide_eq_true_eq, not_or]
      omega
  · rw [if_neg hB, if_pos]
    simp only [Bool.or_eq_true, decide_eq_true_eq]
    omega

/-- Witness for C1: the strict-form string "2024-01-01" parses to the
in-bounds date 2024-01-01. -/
theorem parse_date_strict_witness :
    parse_date [50, 48, 50, 52, 45, 48, 49, 45, 48, 49] =
      if 1900 ≤ 2024 ∧ 2024 ≤ 2100 ∧ 1 ≤ 1 ∧ 1 ≤ 12 ∧ 1 ≤ 1 ∧ 1 ≤ 31 then
        some ⟨(2024 : Int), (1 : Int), (1 : Int)⟩
      else none :=
  parse_date_strict [50, 48, 50, 52, 45, 48, 49, 45, 48, 49] 2024 1 1 (by decide)


/-! ### Orchestrator (main, lines 290-401) -/

/-- The field bounds guaranteed by parse_date: month in [1, 12] and day
in [1, 31].  Every date flowing through the main loop satisfies them. -/
def InBounds (d : Date) : Prop :=
  1 ≤ d.month ∧ d.month ≤ 12 ∧ 1 ≤ d.day ∧ d.day ≤ 31

instance (d : Date) : Decidable (InBounds d) := by
  unfold InBounds; infer_instance

/-- Packing of a date into a single integer, strictly monotone with
respect to compare_dates on InBounds dates; the loop's termination
measure. -/
def dateIdx (d : Date) : Int := d.year * 372 + d.month * 31 + d.day

lemma increment_preserves_inBounds (d : Date) (h : InBounds d) :
    InBounds (increment_date d) := by
  obtain ⟨y, m, dd⟩ := d
  obtain ⟨h1, h2, h3, h4⟩ := h
  have hb := days_in_month_bounds m y (by exact h1) (by exact h2)
  simp only [increment_date, InBounds]
  split_ifs with hA hB <;> refine ⟨?_, ?_, ?_, ?_⟩ <;> dsimp only at * <;> omega

lemma increment_idx_gt (d : Date) (h : InBounds d) :
    dateIdx d < dateIdx (increment_date d) := by
  obtain ⟨y, m, dd⟩ := d
  obtain ⟨h1, h2, h3, h4⟩ := h
  simp only [increment_date, dateIdx]
  split_ifs with hA hB <;> dsimp only at * <;> omega

lemma compare_le_iff (c e : Date) (hc : InBounds c) (he : InBounds e) :
    compare_dates c e ≤ 0 ↔ dateIdx c ≤ dateIdx e := by
  obtain ⟨cy, cm, cd⟩ := c
  obtain ⟨ey, em, ed⟩ := e
  obtain ⟨a1, a2, a3, a4⟩ := hc
  obtain ⟨b1, b2, b3, b4⟩ := he
  simp only [compare_dates, dateIdx] at *
  split_ifs <;> omega

/-- The inner for-loop of main (lines 356-362): create_commit is called
for commits i = 1..count; the oracle commit_ok gives each call's success
(indexed by the global commit counter), and the first failure aborts. -/
def run_commits (commit_ok : Nat → Bool) (base : Nat) : Nat → Bool
  | 0 => true
  | k + 1 => commit_ok base && run_commits commit_ok (base + 1) k

/-- The main while-loop of cyclops.c (lines 344-374): while
`compare_dates(current, end) <= 0`, draw `commits_today = rand() %
(max+1)`, run the day's commits (create_commit failure returns 1 from
main, modelled as `none`), accumulate days_processed and total_commits,
and advance current with increment_date.  `rand` is the stream of
rand() draws (`ridx` the next index; each commit consumes five draws),
and the result is `some (days_processed, total_commits)`. -/
def run_loop (rand : Nat → Nat) (commit_ok : Nat → Bool) (maxc : Int)
    (end_d : Date) (he : InBounds end_d) (cur : Date) (hc : InBounds cur)
    (ridx days total : Nat) : Option (Nat × Nat) :=
  if h : compare_dates cur end_d ≤ 0 then
    let commits_today : Nat := rand ridx % (maxc + 1).toNat
    if run_commits commit_ok total commits_today then
      run_loop rand commit_ok maxc end_d he (increment_date cur)
        (increment_preserves_inBounds cur hc)
        (ridx + 1 + 5 * commits_today) (days + 1) (total + commits_today)
    else none
  else some (days, total)
termination_by (dateIdx end_d + 1 - dateIdx cur).toNat
decreasing_by
  have h1 : dateIdx cur ≤ dateIdx end_d := (compare_le_iff cur end_d hc he).mp h
  have h2 : dateIdx cur < dateIdx (increment_date cur) := increment_idx_gt cur hc
  omega

lemma compare_lt_iff (c e : Date) (hc : InBounds c) (he : InBounds e) :
    compare_dates c e = -1 ↔ dateIdx c < dateIdx e := by
  obtain ⟨cy, cm, cd⟩ := c
  obtain ⟨ey, em, ed⟩ := e
  obtain ⟨a1, a2, a3, a4⟩ := hc
  obtain ⟨b1, b2, b3, b4⟩ := he
  simp only [compare_dates, dateIdx] at *
  split_ifs <;> constructor <;> intro hcon <;> first | exact hcon.elim | omega

lemma compare_eq_zero_iff (c e : Date) : compare_dates c e = 0 ↔ c = e := by
  obtain ⟨cy, cm, cd⟩ := c
  obtain ⟨ey, em, ed⟩ := e
  simp only [compare_dates, Date.mk.injEq]
  split_ifs <;> constructor <;> intro hcon <;> first | exact hcon.elim | omega

lemma compare_neg_iff (c e : Date) : compare_dates c e = -1 ↔
    (c.year < e.year ∨ (c.year = e.year ∧ c.month < e.month) ∨
     (c.year = e.year ∧ c.month = e.month ∧ c.day < e.day)) := by
  obtain ⟨cy, cm, cd⟩ := c
  obtain ⟨ey, em, ed⟩ := e
  simp only [compare_dates]
  split_ifs <;> constructor <;> intro hcon <;> first | exact hcon.elim | omega

lemma compare_vals (c e : Date) :
    compare_dates c e = -1 ∨ compare_dates c e = 0 ∨ compare_dates c e = 1 := by
  obtain ⟨cy, cm, cd⟩ := c
  obtain ⟨ey, em, ed⟩ := e
  simp only [compare_dates]
  split_ifs <;> simp

/-- A fully valid calendar date: month in range and day at most the
actual month length. -/
def Canonical (d : Date) : Prop :=
  1 ≤ d.month ∧ d.month ≤ 12 ∧ 1 ≤ d.day ∧ d.day ≤ days_in_month d.month d.year

instance (d : Date) : Decidable (Canonical d) := by
  unfold Canonical; infer_instance

lemma canonical_inBounds (d : Date) (h : Canonical d) : InBounds d := by
  obtain ⟨h1, h2, h3, h4⟩ := h
  have hb := days_in_month_bounds d.month d.year h1 h2
  exact ⟨h1, h2, h3, by omega⟩

lemma increment_canonical (d : Date) (h : InBounds d) :
    Canonical (increment_date d) := by
  obtain ⟨y, m, dd⟩ := d
  obtain ⟨h1, h2, h3, h4⟩ := h
  have hb := days_in_month_bounds m y h1 h2
  have hb1 := days_in_month_bounds 1 (y + 1) (by omega) (by omega)
  simp only [increment_date, Canonical]
  split_ifs with hA hB <;> refine ⟨?_, ?_, ?_, ?_⟩ <;> dsimp only at * <;> try omega
  · have hb2 := days_in_month_bounds (m + 1) y (by omega) (by omega)
    omega

lemma succ_le_of_lt (c e : Date) (hc : Canonical c) (he : Canonical e)
    (hlt : compare_dates c e = -1) : compare_dates (increment_date c) e ≤ 0 := by
  rw [compare_le_iff (increment_date c) e
    (increment_preserves_inBounds c (canonical_inBounds c hc)) (canonical_inBounds e he)]
  rw [compare_neg_iff] at hlt
  obtain ⟨cy, cm, cd⟩ := c
  obtain ⟨ey, em, ed⟩ := e
  obtain ⟨a1, a2, a3, a4⟩ := hc
  obtain ⟨b1, b2, b3, b4⟩ := he
  dsimp only at *
  have hbc := days_in_month_bounds cm cy a1 a2
  have hbe := days_in_month_bounds em ey b1 b2
  rcases hlt with hy | ⟨hy, hm⟩ | ⟨hy, hm, hd⟩
  · simp only [increment_date, dateIdx]
    split_ifs <;> dsimp only <;> omega
  · subst hy
    simp only [increment_date, dateIdx]
    split_ifs <;> dsimp only <;> omega
  · subst hy
    subst hm
    simp only [increment_date, dateIdx]
    split_ifs <;> dsimp only <;> omega

lemma iterate_inBounds (k : Nat) (d : Date) (h : InBounds d) :
    InBounds (increment_date^[k] d) := by
  induction k generalizing d with
  | zero => simpa using h
  | succ k ih =>
    rw [Function.iterate_succ_apply]
    exact ih (increment_date d) (increment_preserves_inBounds d h)

lemma iterate_idx_le (k : Nat) (d : Date) (h : InBounds d) :
    dateIdx d ≤ dateIdx (increment_date^[k] d) := by
  induction k generalizing d with
  | zero => simp
  | succ k ih =>
    rw [Function.iterate_succ_apply]
    have h1 := increment_idx_gt d h
    have h2 := ih (increment_date d) (increment_preserves_inBounds d h)
    omega

lemma iterate_idx_strict (k : Nat) (d : Date) (h : InBounds d) (hk : 0 < k) :
    dateIdx d < dateIdx (increment_date^[k] d) := by
  obtain ⟨j, rfl⟩ : ∃ j, k = j + 1 := ⟨k - 1, by omega⟩
  rw [Function.iterate_succ_apply]
  have h1 := increment_idx_gt d h
  have h2 := iterate_idx_le j (increment_date d) (increment_preserves_inBounds d h)
  omega

lemma reachable (end_d : Date) (he : Canonical end_d) :
    ∀ (n : Nat) (c : Date), Canonical c → (dateIdx end_d - dateIdx c).toNat = n →
      compare_dates c end_d ≤ 0 → ∃ k, increment_date^[k] c = end_d := by
  intro n
  induction n using Nat.strong_induction_on with
  | _ n ih =>
    intro c hc hn hle
    rcases compare_vals c end_d with hlt | heq | hgt
    · have hnext := increment_canonical c (canonical_inBounds c hc)
      have hle2 := succ_le_of_lt c end_d hc he hlt
      have hidx1 := increment_idx_gt c (canonical_inBounds c hc)
      have hidx2 := (compare_le_iff (increment_date c) end_d
        (canonical_inBounds _ hnext) (canonical_inBounds _ he)).mp hle2
      have hidx0 := (compare_lt_iff c end_d (canonical_inBounds c hc)
        (canonical_inBounds _ he)).mp hlt
      obtain ⟨k, hk⟩ := ih (dateIdx end_d - dateIdx (increment_date c)).toNat
        (by omega) (increment_date c) hnext rfl hle2
      exact ⟨k + 1, by rw [Function.iterate_succ_apply, hk]⟩
    · exact ⟨0, by simpa using (compare_eq_zero_iff c end_d).mp heq⟩
    · omega

lemma run_commits_all_ok (commit_ok : Nat → Bool) (hco : ∀ i, commit_ok i = true) :
    ∀ (n base : Nat), run_commits commit_ok base n = true := by
  intro n
  induction n with
  | zero => intro base; rfl
  | succ k ih =>
    intro base
    unfold run_commits
    rw [hco base, ih (base + 1)]
    rfl

lemma run_loop_isSome (rand : Nat → Nat) (commit_ok : Nat → Bool) (maxc : Int)
    (end_d : Date) (hco : ∀ i, commit_ok i = true) :
    ∀ (n : Nat) (he : InBounds end_d) (cur : Date) (hc : InBounds cur)
      (ridx days total : Nat), (dateIdx end_d + 1 - dateIdx cur).toNat = n →
      (run_loop rand commit_ok maxc end_d he cur hc ridx days total).isSome = true := by
  intro n
  induction n using Nat.strong_induction_on with
  | _ n ih =>
    intro he cur hc ridx days total hn
    rw [run_loop]
    split_ifs with h1
    · rw [if_pos (run_commits_all_ok commit_ok hco _ _)]
      have hidx1 := (compare_le_iff cur end_d hc he).mp h1
      have hidx2 := increment_idx_gt cur hc
      exact ih (dateIdx end_d + 1 - dateIdx (increment_date cur)).toNat (by omega)
        he (increment_date cur) (increment_preserves_inBounds cur hc) _ _ _ rfl
    · rfl

lemma parse_date_bounds (s : List Nat) (d : Date) (h : parse_date s = some d) :
    1900 ≤ d.year ∧ d.year ≤ 2100 ∧ InBounds d := by
  unfold parse_date at h
  rcases h1 : scanInt s with _ | ⟨y0, r1⟩ <;> rw [h1] at h
  · exact absurd h (by simp)
  dsimp only at h
  rcases r1 with _ | ⟨c1, r2⟩
  · exact absurd h (by simp)
  dsimp only at h
  by_cases hc1 : (c1 == 45) = true
  swap
  · rw [if_neg hc1] at h; exact absurd h (by simp)
  rw [if_pos hc1] at h
  rcases h2 : scanInt r2 with _ | ⟨m0, r3⟩ <;> rw [h2] at h
  · exact absurd h (by simp)
  dsimp only at h
  rcases r3 with _ | ⟨c2, r4⟩
  · exact absurd h (by simp)
  dsimp only at h
  by_cases hc2 : (c2 == 45) = true
  swap
  · rw [if_neg hc2] at h; exact absurd h (by simp)
  rw [if_pos hc2] at h
  rcases h3 : scanInt r4 with _ | ⟨d0, r5⟩ <;> rw [h3] at h
  · exact absurd h (by simp)
  dsimp only at h
  split_ifs at h with hB
  simp only [Option.some.injEq] at h
  subst h
  simp only [Bool.or_eq_true, decide_eq_true_eq, not_or] at hB
  refine ⟨?_, ?_, ?_, ?_, ?_, ?_⟩ <;> (try dsimp only) <;> omega

/-- The body of main for `argc == 4` (cyclops.c lines 290-401): parse
both dates (exit 1 on failure), check `1 <= max_commits_per_day <= 50`
via atoi (exit 1), check `start <= end` (exit 1), initialize the git
repository (`init_ok` oracle; exit 1 on failure), run the day loop
(exit 1 if any external call fails), then exit 0. -/
def main_args (arg1 arg2 arg3 : List Nat) (rand : Nat → Nat) (init_ok : Bool)
    (commit_ok : Nat → Bool) : Int :=
  match h1 : parse_date arg1 with
  | none => 1
  | some start_d =>
    match h2 : parse_date arg2 with
    | none => 1
    | some end_d =>
      if atoi arg3 < 1 ∨ atoi arg3 > 50 then 1
      else if compare_dates start_d end_d > 0 then 1
      else if init_ok then
        match run_loop rand commit_ok (atoi arg3) end_d
            (parse_date_bounds arg2 end_d h2).2.2 start_d
            (parse_date_bounds arg1 start_d h1).2.2 0 0 0 with
        | none => 1
        | some _ => 0
      else 1

/-- main of cyclops.c as a function of argv[1..]: `argc != 4` prints
usage and exits 1; otherwise the three arguments are processed. -/
def main_run (args : List (List Nat)) (rand : Nat → Nat) (init_ok : Bool)
    (commit_ok : Nat → Bool) : Int :=
  match args with
  | [arg1, arg2, arg3] => main_args arg1 arg2 arg3 rand init_ok commit_ok
  | _ => 1

lemma compare_self (d : Date) : compare_dates d d = 0 := by
  simp [compare_dates]

lemma not_le_increment (d : Date) (h : InBounds d) :
    ¬ compare_dates (increment_date d) d ≤ 0 := by
  rw [compare_le_iff (increment_date d) d (increment_preserves_inBounds d h) h]
  have := increment_idx_gt d h
  omega

lemma run_loop_counts (rand : Nat → Nat) (commit_ok : Nat → Bool) (maxc : Int)
    (hmax : 1 ≤ maxc) (hco : ∀ i, commit_ok i = true) (end_d : Date) (he : InBounds end_d) :
    ∀ (n : Nat) (c : Date) (hcb : InBounds c), increment_date^[n] c = end_d →
      ∀ (ridx days total : Nat),
      ∃ t, run_loop rand commit_ok maxc end_d he c hcb ridx days total =
          some (days + n + 1, total + t) ∧ t ≤ (n + 1) * maxc.toNat := by
  intro n
  induction n with
  | zero =>
    intro c hcb hEnd ridx days total
    simp only [Function.iterate_zero, id] at hEnd
    subst hEnd
    have h0 : compare_dates c c ≤ 0 := by rw [compare_self]
    refine ⟨rand ridx % (maxc + 1).toNat, ?_, ?_⟩
    · rw [run_loop, dif_pos h0]
      dsimp only
      rw [if_pos (run_commits_all_ok commit_ok hco _ _)]
      rw [run_loop, dif_neg (not_le_increment c hcb)]
    · have hlt := Nat.mod_lt (rand ridx) (show 0 < (maxc + 1).toNat by omega)
      omega
  | succ n ih =>
    intro c hcb hEnd ridx days total
    have hEnd2 : increment_date^[n] (increment_date c) = end_d := by
      rw [← Function.iterate_succ_apply]
      exact hEnd
    have hle : compare_dates c end_d ≤ 0 := by
      rw [compare_le_iff c end_d hcb he]
      have h1 := increment_idx_gt c hcb
      have h2 := iterate_idx_le n (increment_date c) (increment_preserves_inBounds c hcb)
      rw [hEnd2] at h2
      omega
    obtain ⟨t, ht, htb⟩ := ih (increment_date c) (increment_preserves_inBounds c hcb) hEnd2
      (ridx + 1 + 5 * (rand ridx % (maxc + 1).toNat)) (days + 1)
      (total + rand ridx % (maxc + 1).toNat)
    refine ⟨rand ridx % (maxc + 1).toNat + t, ?_, ?_⟩
    · rw [run_loop, dif_pos hle]
      dsimp only
      rw [if_pos (run_commits_all_ok commit_ok hco _ _)]
      rw [ht]
      simp only [Option.some.injEq, Prod.mk.injEq]
      omega
    · have hlt := Nat.mod_lt (rand ridx) (show 0 < (maxc + 1).toNat by omega)
      have hmul : (n + 1 + 1) * maxc.toNat = maxc.toNat + (n + 1) * maxc.toNat := by ring
      omega

/-- C5: for every valid range start ≤ end (genuinely valid calendar
dates), the main loop visits each date from start to end inclusive
exactly once — days_processed equals n + 1 where n is the number of
increments from start to end, the visited dates are pairwise distinct —
and total_commits is between 0 and days_processed * max_commits_per_day,
for every rand() stream, provided every external call succeeds. -/
theorem run_loop_day_count (rand : Nat → Nat) (commit_ok : Nat → Bool) (maxc : Int)
    (start_d end_d : Date) (hsC : Canonical start_d) (heC : Canonical end_d)
    (heB : InBounds end_d) (hsB : InBounds start_d)
    (hmax : 1 ≤ maxc) (hmax2 : maxc ≤ 50)
    (hco : ∀ i, commit_ok i = true)
    (hrange : compare_dates start_d end_d ≤ 0) :
    ∃ n : Nat, increment_date^[n] start_d = end_d ∧
      (∀ i j : Nat, i ≤ n → j ≤ n →
        increment_date^[i] start_d = increment_date^[j] start_d → i = j) ∧
      ∃ total : Nat,
        run_loop rand commit_ok maxc end_d heB start_d hsB 0 0 0 = some (n + 1, total) ∧
        total ≤ (n + 1) * maxc.toNat := by
  obtain ⟨n, hn⟩ := reachable end_d heC (dateIdx end_d - dateIdx start_d).toNat start_d
    hsC rfl hrange
  refine ⟨n, hn, ?_, ?_⟩
  · intro i j hi hj hij
    by_contra hne
    rcases Nat.lt_trichotomy i j with hltij | heqij | hltji
    · have hsplit : increment_date^[j] start_d =
          increment_date^[j - i] (increment_date^[i] start_d) := by
        rw [← Function.iterate_add_apply]
        congr 1
        omega
      have hstrict := iterate_idx_strict (j - i) (increment_date^[i] start_d)
        (iterate_inBounds i start_d hsB) (by omega)
      rw [← hsplit, ← hij] at hstrict
      omega
    · exact hne heqij
    · have hsplit : increment_date^[i] start_d =
          increment_date^[i - j] (increment_date^[j] start_d) := by
        rw [← Function.iterate_add_apply]
        congr 1
        omega
      have hstrict := iterate_idx_strict (i - j) (increment_date^[j] start_d)
        (iterate_inBounds j start_d hsB) (by omega)
      rw [← hsplit, hij] at hstrict
      omega
  · obtain ⟨t, ht, htb⟩ := run_loop_counts rand commit_ok maxc hmax hco end_d heB
      n start_d hsB hn 0 0 0
    refine ⟨t, ?_, htb⟩
    simpa using ht

/-- C4: main exits 1 whenever argument validation fails — unparseable
start or end date, max_commits_per_day out of [1, 50] (atoi of a
non-number gives 0, also rejected), or start after end — and exits 0
when both dates parse, the bound is in range, start ≤ end, and the
repository initialization and every commit call succeed. -/
theorem main_exit_codes (a1 a2 a3 : List Nat) (rand : Nat → Nat) (init_ok : Bool)
    (commit_ok : Nat → Bool) :
    (parse_date a1 = none → main_run [a1, a2, a3] rand init_ok commit_ok = 1) ∧
    (parse_date a2 = none → main_run [a1, a2, a3] rand init_ok commit_ok = 1) ∧
    (atoi a3 < 1 ∨ atoi a3 > 50 → main_run [a1, a2, a3] rand init_ok commit_ok = 1) ∧
    (∀ s e : Date, parse_date a1 = some s → parse_date a2 = some e →
      compare_dates s e > 0 → main_run [a1, a2, a3] rand init_ok commit_ok = 1) ∧
    (∀ s e : Date, parse_date a1 = some s → parse_date a2 = some e →
      1 ≤ atoi a3 → atoi a3 ≤ 50 → compare_dates s e ≤ 0 → init_ok = true →
      (∀ i, commit_ok i = true) →
      main_run [a1, a2, a3] rand init_ok commit_ok = 0) := by
  have hdisp : main_run [a1, a2, a3] rand init_ok commit_ok =
      main_args a1 a2 a3 rand init_ok commit_ok := rfl
  rw [hdisp]
  refine ⟨?_, ?_, ?_, ?_, ?_⟩
  · intro hA
    unfold main_args
    split <;> simp_all
  · intro hA
    unfold main_args
    split <;> try rfl
    split <;> simp_all
  · intro hA
    unfold main_args
    split <;> try rfl
    split <;> try rfl
    rw [if_pos hA]
  · intro s e hs he hcmp
    unfold main_args
    split
    · rfl
    · rename_i s2 hs2
      rw [hs] at hs2
      injection hs2 with hs2
      subst hs2
      split
      · rfl
      · rename_i e2 he2
        rw [he] at he2
        injection he2 with he2
        subst he2
        split_ifs with hif1 <;> rfl
  · intro s e hs he hm1 hm2 hcmp hinit hco
    unfold main_args
    split
    · simp_all
    · rename_i s2 hs2
      rw [hs] at hs2
      injection hs2 with hs2
      subst hs2
      split
      · simp_all
      · rename_i e2 he2
        rw [he] at he2
        injection he2 with he2
        subst he2
        rw [if_neg (by omega), if_neg (by omega), if_pos hinit]
        split
        · rename_i hnone
          have hsome := run_loop_isSome rand commit_ok (atoi a3) e hco
            (dateIdx e + 1 - dateIdx s).toNat (parse_date_bounds a2 e he).2.2 s
            (parse_date_bounds a1 s hs).2.2 0 0 0 rfl
          rw [hnone] at hsome
          simp at hsome
        · rfl

/-- Witness for C5: the spec's own example, 2024-01-01 to 2024-01-03
with max 1 commit per day. -/
theorem run_loop_day_count_witness :
    ∃ n : Nat, increment_date^[n] (⟨2024, 1, 1⟩ : Date) = (⟨2024, 1, 3⟩ : Date) ∧
      (∀ i j : Nat, i ≤ n → j ≤ n →
        increment_date^[i] (⟨2024, 1, 1⟩ : Date) =
          increment_date^[j] (⟨2024, 1, 1⟩ : Date) → i = j) ∧
      ∃ total : Nat,
        run_loop (fun _ => 0) (fun _ => true) 1 ⟨2024, 1, 3⟩ (by decide)
            ⟨2024, 1, 1⟩ (by decide) 0 0 0 = some (n + 1, total) ∧
        total ≤ (n + 1) * (1 : Int).toNat :=
  run_loop_day_count (fun _ => 0) (fun _ => true) 1 ⟨2024, 1, 1⟩ ⟨2024, 1, 3⟩
    (by decide) (by decide) (by decide) (by decide) (by decide) (by decide)
    (fun _ => rfl) (by decide)

/-- Witness for C4: a full successful run over "2024-01-01" to
"2024-01-03" with max "5" exits 0. -/
theorem main_exit_codes_witness :
    main_run [[50, 48, 50, 52, 45, 48, 49, 45, 48, 49],
              [50, 48, 50, 52, 45, 48, 49, 45, 48, 51], [53]]
      (fun _ => 0) true (fun _ => true) = 0 :=
  (main_exit_codes [50, 48, 50, 52, 45, 48, 49, 45, 48, 49]
      [50, 48, 50, 52, 45, 48, 49, 45, 48, 51] [53]
      (fun _ => 0) true (fun _ => true)).2.2.2.2 ⟨2024, 1, 1⟩ ⟨2024, 1, 3⟩
    (by decide) (by decide) (by decide) (by decide) (by decide) rfl (fun _ => rfl)

end Cyclops
